import Mathlib

set_option maxRecDepth 8192

/-!
Verification of the YouTube lesson tool (`app.py`).

The development shallowly embeds the program's logic:

* `extract_video_id` — the URL identifier extractor.  The source applies
  `re.search` with four fixed patterns in a fixed order.  We embed the
  relevant regex fragment (literals, character classes, greedy `?`,
  greedy `.*`, and one fixed-width capture group) as a small backtracking
  matcher `reMatches` that enumerates candidate matches in exactly the
  backtracking preference order of the Python `re` engine, together with
  the leftmost search `reSearch` mirroring `re.search`.
* `escape_markdown`, `previewOf`, `pySplit`, `generate_lesson_from_text`
  — the lesson-card templater.
* `find_transcript` / `select_transcript` / `get_transcript` — transcript
  retrieval; the external service result is passed in explicitly.
* `main_route` / `main_fetch` — the UI-level routing of errors.

A declarative match relation `RMatch` gives meaning to the regex fragment
and the matcher is proved sound and complete with respect to it.
-/

/-! ### Regex fragment used by `extract_video_id` (app.py lines 34-46) -/

/-- Character class `[a-zA-Z0-9_-]` from the source patterns. -/
def vidChar (c : Char) : Bool := c.isAlphanum || c == '_' || c == '-'

/-- The class matched by `.` in Python `re` (any character except newline). -/
def dotChar (c : Char) : Bool := c != '\n'

/-- Abstract syntax for the regex fragment appearing in the four source
patterns: empty string, literal character, character class, concatenation,
greedy option `(?:...)?`, greedy star of a class (only `.*` is needed), and
a capture group of exactly `n` class characters (`([a-zA-Z0-9_-]{11})`). -/
inductive RE : Type where
  | eps : RE
  | lit : Char → RE
  | cls : (Char → Bool) → RE
  | seq : RE → RE → RE
  | opt : RE → RE
  | star : (Char → Bool) → RE
  | grp : Nat → (Char → Bool) → RE

/-- Combine the captures of two concatenated sub-matches (each source
pattern has exactly one group, so at most one side is `some`). -/
def capJoin : Option (List Char) → Option (List Char) → Option (List Char)
  | some g, _ => some g
  | none, c => c

/-- Splits produced by a greedy star over class `p` at the current
position, in backtracking preference order (longest consumed first).
Each entry is `(capture, remaining input)`. -/
def starSplits (p : Char → Bool) : List Char → List (Option (List Char) × List Char)
  | [] => [(none, [])]
  | c :: t => if p c then starSplits p t ++ [(none, c :: t)] else [(none, c :: t)]

/-- All ways the regex can match a prefix of the input, in the
backtracking preference order of the Python `re` engine: each entry is
`(captured group, remaining input)`.  Greedy operators put longer
consumption first; concatenation backtracks the right component first. -/
def reMatches : RE → List Char → List (Option (List Char) × List Char)
  | .eps, s => [(none, s)]
  | .lit _, [] => []
  | .lit a, c :: t => if c = a then [(none, t)] else []
  | .cls _, [] => []
  | .cls p, c :: t => if p c then [(none, t)] else []
  | .seq r₁ r₂, s =>
      (reMatches r₁ s).flatMap fun pr =>
        (reMatches r₂ pr.2).map fun qr => (capJoin pr.1 qr.1, qr.2)
  | .opt r, s => reMatches r s ++ [(none, s)]
  | .star p, s => starSplits p s
  | .grp n p, s =>
      if (s.take n).length = n ∧ (s.take n).all p then
        [(some (s.take n), s.drop n)] else []

/-- `re.search`: try each start position from the left; at the first
position where the pattern matches, return the capture of the
preferred (first) match. -/
def reSearch (r : RE) (s : List Char) : Option (Option (List Char)) :=
  match reMatches r s with
  | (c, _) :: _ => some c
  | [] =>
      match s with
      | [] => none
      | _ :: t => reSearch r t

/-- `re.search(pattern, url)` followed by `match.group(1)`: the result of
searching, projected to the captured group. -/
def search1 (r : RE) (s : List Char) : Option (List Char) :=
  match reSearch r s with
  | some (some g) => some g
  | _ => none

/-- Literal word as a regex. -/
def litStr : List Char → RE
  | [] => .eps
  | c :: t => .seq (.lit c) (litStr t)

/-- `(?:https?:\/\/)?` — optional scheme. -/
def schemeRE : RE :=
  .opt (.seq (litStr "http".data) (.seq (.opt (.lit 's')) (litStr "://".data)))

/-- `(?:www\.)?` — optional `www.`. -/
def wwwRE : RE := .opt (litStr "www.".data)

/-- Common form of source patterns 2-4: optional scheme, optional `www.`,
a literal core, and the 11-character capture group. -/
def simpleRE (core : List Char) : RE :=
  .seq schemeRE (.seq wwwRE (.seq (litStr core) (.grp 11 vidChar)))

/-- Source pattern
`(?:https?:\/\/)?(?:www\.)?youtube\.com\/watch\?(?:.*&)?v=([a-zA-Z0-9_-]{11})`. -/
def pattern1 : RE :=
  .seq schemeRE (.seq wwwRE (.seq (litStr "youtube.com/watch?".data)
    (.seq (.opt (.seq (.star dotChar) (.lit '&')))
      (.seq (litStr "v=".data) (.grp 11 vidChar)))))

/-- Source pattern `(?:https?:\/\/)?(?:www\.)?youtu\.be\/([a-zA-Z0-9_-]{11})`. -/
def pattern2 : RE := simpleRE "youtu.be/".data

/-- Source pattern `(?:https?:\/\/)?(?:www\.)?youtube\.com\/embed\/([a-zA-Z0-9_-]{11})`. -/
def pattern3 : RE := simpleRE "youtube.com/embed/".data

/-- Source pattern `(?:https?:\/\/)?(?:www\.)?youtube\.com\/v\/([a-zA-Z0-9_-]{11})`. -/
def pattern4 : RE := simpleRE "youtube.com/v/".data

/-- The `for pattern in patterns` loop of `extract_video_id`: return the
group of the first pattern whose search succeeds. -/
def tryPatterns : List RE → List Char → Option (List Char)
  | [], _ => none
  | r :: rs, s =>
      match search1 r s with
      | some g => some g
      | none => tryPatterns rs s

/-- `extract_video_id` (app.py lines 18-46): try the four patterns in
their listed order, returning the first captured group, or `None`. -/
def extract_video_id (url : List Char) : Option (List Char) :=
  tryPatterns [pattern1, pattern2, pattern3, pattern4] url

/-! ### Lesson card templater (app.py lines 100-205) -/

/-- The fixed special-character list of `escape_markdown` (app.py line 127),
in source order. -/
def special_chars : List Char :=
  ['\\', '\x60', '*', '_', '\x7b', '\x7d', '[', ']', '(', ')', '#', '+', '-', '.', '!', '|']

/-- One `text.replace(char, '\\' + char)` step: every occurrence of `c`
is replaced by a backslash followed by `c`. -/
def replaceChar (c : Char) (s : List Char) : List Char :=
  s.flatMap fun x => if x = c then ['\\', c] else [x]

/-- `escape_markdown` (app.py lines 124-130): apply the per-character
global substitutions sequentially over `special_chars`. -/
def escape_markdown (s : List Char) : List Char :=
  special_chars.foldl (fun t c => replaceChar c t) s

/-- The characters no-argument `str.split()` splits on (CPython's
`Py_UNICODE_ISSPACE`): the ASCII whitespace characters `0x09`-`0x0d` and
space, the separator control characters `0x1c`-`0x1f`, and the Unicode
space characters — NEL `0x85`, NBSP `0xa0`, Ogham space `0x1680`, the
`0x2000`-`0x200a` spaces, line and paragraph separators `0x2028`/`0x2029`,
narrow no-break space `0x202f`, medium mathematical space `0x205f`, and
ideographic space `0x3000`. -/
def pySpaceChars : List Char :=
  [' ', '\t', '\n', '\x0b', '\x0c', '\r', '\x1c', '\x1d', '\x1e', '\x1f',
   '\u0085', '\u00a0', '\u1680',
   '\u2000', '\u2001', '\u2002', '\u2003', '\u2004', '\u2005', '\u2006',
   '\u2007', '\u2008', '\u2009', '\u200a',
   '\u2028', '\u2029', '\u202f', '\u205f', '\u3000']

/-- Python whitespace, as recognised by no-argument `str.split()`:
membership in the `Py_UNICODE_ISSPACE` set above. -/
def isPySpace (c : Char) : Bool := pySpaceChars.contains c

/-- `transcript_text.split()` (app.py line 133): split on runs of
whitespace, discarding empty fields. -/
def pySplit : List Char → List (List Char)
  | [] => []
  | c :: t =>
      if isPySpace c then pySplit t
      else (c :: t.takeWhile (fun x => !isPySpace x)) :: pySplit (t.dropWhile (fun x => !isPySpace x))
termination_by s => s.length
decreasing_by
  · simp only [List.length_cons]; omega
  · exact Nat.lt_succ_of_le (List.dropWhile_sublist _).length_le

/-- The preview expression of app.py line 134:
`transcript_text[:500] + "..." if len(transcript_text) > 500 else transcript_text`. -/
def previewOf (t : List Char) : List Char :=
  if 500 < t.length then t.take 500 ++ "...".data else t

/-- Template text before `{word_count}` in the f-string (app.py line 141-144). -/
def tplA : List Char :=
  "# 📚 Scheda di Lezione\n\n## 📋 Informazioni Generali\n- **Lunghezza trascrizione**: ".data

/-- Template text between `{word_count}` and `{preview_escaped}`. -/
def tplB : List Char :=
  " parole\n- **Lingua**: Italiano/Inglese\n\n## 📝 Anteprima Trascrizione\n".data

/-- Template text between `{preview_escaped}` and `{transcript_escaped}`. -/
def tplC : List Char :=
  ("\n\n## 🎯 Obiettivi della Lezione\n*Questa sezione conterrà gli obiettivi principali della lezione una volta integrata l\x27elaborazione AI.*\n\n## 🔑 Concetti Chiave\n*Questa sezione elencherà i concetti principali trattati nella lezione.*\n\n1. Concetto 1\n2. Concetto 2\n3. Concetto 3\n\n## 📖 Spiegazione Dettagliata\n*Questa sezione conterrà una spiegazione approfondita degli argomenti trattati.*\n\n### Argomento 1\nDescrizione dettagliata...\n\n### Argomento 2\nDescrizione dettagliata...\n\n## 🧮 Formule Importanti\n*Se applicabile, questa sezione mostrerà le formule matematiche o fisiche trattate.*\n\n## 💡 Esempi\n*Questa sezione conterrà esempi pratici discussi nella lezione.*\n\n## 📌 Riepilogo\n*Questa sezione riassumerà i punti chiave della lezione.*\n\n---\n\n## 🔬 Nota per il Futuro\nPer ottenere un\x27analisi completa e intelligente del contenuto, questa applicazione può essere integrata con:\n- OpenAI GPT-4\n- Anthropic Claude\n- Google Gemini\n- Altri modelli di linguaggio avanzati\n\nIl modello AI analizzerà la trascrizione completa e genererà automaticamente:\n- Titolo appropriato\n- Riassunto\n- Concetti chiave estratti\n- Spiegazioni dettagliate\n- Formule (se presenti)\n- Esempi pratici\n- Conclusioni\n\n### 📄 Trascrizione Completa\n<details>\n<summary>Clicca per visualizzare la trascrizione completa</summary>\n\n").data

/-- Template text after `{transcript_escaped}` (end of the f-string). -/
def tplD : List Char := "\n\n</details>\n".data

/-- `generate_lesson_from_text` (app.py lines 100-205): compute the word
count of the raw transcript, build the preview, escape preview and full
transcript, and splice them into the fixed template. -/
def generate_lesson_from_text (t : List Char) : List Char :=
  tplA ++ (Nat.repr (pySplit t).length).data ++ tplB
    ++ escape_markdown (previewOf t) ++ tplC ++ escape_markdown t ++ tplD

/-! ### Transcript retrieval (app.py lines 49-97)

The external service (`youtube_transcript_api`) is out of scope; its
response is passed to `get_transcript` explicitly: either a listing
failure or the list of available tracks in the service's default
iteration order. -/

/-- A timed transcript segment as returned by the service; `start` and
`duration` model the timing metadata, never consumed by the core. -/
structure Segment where
  text : List Char
  start : Int
  duration : Int
deriving DecidableEq

/-- A transcript track tagged with a language code; fetching it yields
its segments. -/
structure Track where
  language_code : List Char
  segments : List Segment
deriving DecidableEq

/-- Modelled from the spec: the external service's
`find_transcript(language_codes)` operation, absent from the repository
(it lives in `youtube_transcript_api`).  Per the collaborator contract of
the spec, it tries each requested language code in order and returns the
first track tagged with it, failing if none of the codes is offered. -/
def find_transcript (langs : List (List Char)) (ts : List Track) : Option Track :=
  match langs with
  | [] => none
  | l :: ls =>
      match ts.find? (fun tr => tr.language_code == l) with
      | some tr => some tr
      | none => find_transcript ls ts

/-- The selection logic of `get_transcript` (app.py lines 72-82):
`find_transcript(['it', 'en'])`, and on `NoTranscriptFound` fall back to
`next(iter(transcript_list))`; an empty iterator means no track at all. -/
def select_transcript (ts : List Track) : Option Track :=
  match find_transcript ["it".data, "en".data] ts with
  | some tr => some tr
  | none => ts.head?

/-- `" ".join([entry['text'] for entry in transcript_data])`
(app.py line 88). -/
def join_texts (segs : List Segment) : List Char :=
  List.intercalate " ".data (segs.map Segment.text)

/-- The three failure conditions the service can raise while listing or
fetching (`TranscriptsDisabled`, `NoTranscriptFound`, `VideoUnavailable`). -/
inductive ApiError : Type where
  | disabled : ApiError
  | notFound : ApiError
  | unavailable : ApiError
deriving DecidableEq

/-- Message of the `except TranscriptsDisabled` clause (app.py line 93). -/
def msg_disabled : List Char := "Le trascrizioni sono disabilitate per questo video.".data

/-- Message of the `except NoTranscriptFound` clause (app.py line 95). -/
def msg_notfound : List Char := "Nessuna trascrizione trovata per questo video.".data

/-- Message of the `except VideoUnavailable` clause (app.py line 97). -/
def msg_unavailable : List Char := "Video non disponibile o ID non valido.".data

/-- The failure-to-message mapping established by the three `except`
clauses of `get_transcript` (app.py lines 92-97). -/
def api_error_message : ApiError → List Char
  | .disabled => msg_disabled
  | .notFound => msg_notfound
  | .unavailable => msg_unavailable

/-- `get_transcript` (app.py lines 49-97) given the service's response:
a raised listing failure is caught by the matching `except` clause and
re-raised as a user-facing message; otherwise a track is selected and its
segments joined; with no track, the internally raised `NoTranscriptFound`
is caught by the same clauses. -/
def get_transcript (listing : Except ApiError (List Track)) : Except (List Char) (List Char) :=
  match listing with
  | .error .disabled => .error msg_disabled
  | .error .notFound => .error msg_notfound
  | .error .unavailable => .error msg_unavailable
  | .ok ts =>
      match select_transcript ts with
      | some tr => .ok (join_texts tr.segments)
      | none => .error msg_notfound

/-- Outcome of the fetch stage of `main` (app.py lines 272-285): either
the transcript text, or an error message shown inline followed by
`return` (no retry, no propagation). -/
inductive FetchOutcome : Type where
  | fetched : List Char → FetchOutcome
  | failed : List Char → FetchOutcome
deriving DecidableEq

/-- The `try`/`except` around `get_transcript` in `main`: any raised
message is caught and shown; the failure is terminal for the request. -/
def main_fetch (listing : Except ApiError (List Track)) : FetchOutcome :=
  match get_transcript listing with
  | .ok t => .fetched t
  | .error m => .failed m

/-! ### UI routing of the submitted URL (app.py lines 247-263) -/

/-- Message of the empty-input branch (app.py line 249). -/
def msg_empty : List Char := "⚠️ Per favore, inserisci un URL di YouTube valido.".data

/-- Message of the unparseable-URL branch (app.py line 256). -/
def msg_invalid : List Char := "❌ URL non valido. Assicurati di inserire un URL YouTube corretto.".data

/-- The `st.info` hint shown next to the unparseable-URL message
(app.py lines 257-262), transcribed verbatim from the triple-quoted
string, indentation included. -/
def hint_formats : List Char :=
  "\n            **Formati supportati:**\n            - \x60https://www.youtube.com/watch?v=VIDEO_ID\x60\n            - \x60https://youtu.be/VIDEO_ID\x60\n            - \x60https://www.youtube.com/embed/VIDEO_ID\x60\n            ".data

/-- Outcome of the URL-validation stage of `main`. -/
inductive UiOutcome : Type where
  | emptyInput : List Char → UiOutcome
  | invalidUrl : List Char → List Char → UiOutcome
  | accepted : List Char → UiOutcome
deriving DecidableEq

/-- The URL-validation control flow of `main` (app.py lines 247-263):
empty input and unparseable input each show their message and `return`;
otherwise processing continues with the extracted identifier. -/
def main_route (url : List Char) : UiOutcome :=
  if url = [] then .emptyInput msg_empty
  else
    match extract_video_id url with
    | none => .invalidUrl msg_invalid hint_formats
    | some v => .accepted v

/-! ### Claim-side definitions

These definitions formalise the words of the specification's claims (not
the source); the theorems below relate them to the source embedding. -/

/-- Claim-side: a valid video identifier token — exactly 11 characters of
the class `[a-zA-Z0-9_-]`. -/
def ValidTok (t : List Char) : Prop := t.length = 11 ∧ t.all vidChar = true

/-- Claim-side: the input contains the `watch?v=` URL shape carrying
token `t` — the literal `youtube.com/watch?`, then either nothing or an
arbitrary newline-free query part ending in `&`, then `v=` and the token. -/
def Shape1 (s t : List Char) : Prop :=
  ∃ q, ("youtube.com/watch?".data ++ q ++ "v=".data ++ t) <:+: s ∧
    (q = [] ∨ ∃ w, q = w ++ ['&'] ∧ w.all dotChar = true)

/-- Claim-side: the input contains the short `youtu.be/` shape with token `t`. -/
def Shape2 (s t : List Char) : Prop := ("youtu.be/".data ++ t) <:+: s

/-- Claim-side: the input contains the `embed/` shape with token `t`. -/
def Shape3 (s t : List Char) : Prop := ("youtube.com/embed/".data ++ t) <:+: s

/-- Claim-side: the input contains the legacy `v/` shape with token `t`. -/
def Shape4 (s t : List Char) : Prop := ("youtube.com/v/".data ++ t) <:+: s

/-- Claim-side: the input contains one of the four supported URL shapes
with valid token `t`. -/
def ContainsTok (s t : List Char) : Prop :=
  ValidTok t ∧ (Shape1 s t ∨ Shape2 s t ∨ Shape3 s t ∨ Shape4 s t)

/-- Claim-side: pointwise escaping — each special character becomes
backslash-prefixed, all others are untouched. -/
def escChar (c : Char) : List Char :=
  if c ∈ special_chars then ['\\', c] else [c]

mutual

/-- Claim-side: the number of whitespace-delimited tokens of a string
(scanning outside a token). -/
def wordTokens : List Char → Nat
  | [] => 0
  | c :: t => if isPySpace c then wordTokens t else wordTokensIn t + 1

/-- Claim-side: the number of whitespace-delimited tokens still to come
while scanning inside a token. -/
def wordTokensIn : List Char → Nat
  | [] => 0
  | c :: t => if isPySpace c then wordTokens t else wordTokensIn t

end

/-- Whether a regex contains no capture group (used to show that the
prefix parts of the patterns never contribute a capture). -/
def capFree : RE → Bool
  | .eps => true
  | .lit _ => true
  | .cls _ => true
  | .star _ => true
  | .seq a b => capFree a && capFree b
  | .opt a => capFree a
  | .grp _ _ => false

/-- Declarative semantics of the regex fragment: `RMatch r u cap` holds
when `r` matches exactly the string `u`, capturing `cap`. -/
inductive RMatch : RE → List Char → Option (List Char) → Prop where
  | eps : RMatch .eps [] none
  | lit (c : Char) : RMatch (.lit c) [c] none
  | cls {p : Char → Bool} {c : Char} : p c = true → RMatch (.cls p) [c] none
  | seq {r₁ r₂ : RE} {u v : List Char} {c₁ c₂ : Option (List Char)} :
      RMatch r₁ u c₁ → RMatch r₂ v c₂ → RMatch (.seq r₁ r₂) (u ++ v) (capJoin c₁ c₂)
  | optSome {r : RE} {u : List Char} {c : Option (List Char)} :
      RMatch r u c → RMatch (.opt r) u c
  | optNone {r : RE} : RMatch (.opt r) [] none
  | star {p : Char → Bool} {u : List Char} :
      (∀ ch ∈ u, p ch = true) → RMatch (.star p) u none
  | grp {n : Nat} {p : Char → Bool} {u : List Char} :
      u.length = n → (∀ ch ∈ u, p ch = true) → RMatch (.grp n p) u (some u)

example : extract_video_id "https://www.youtube.com/watch?v=ABCDEFGHIJK&t=5s".data
    = some "ABCDEFGHIJK".data := by decide

example : extract_video_id "https://youtu.be/dQw4w9WgXcQ".data
    = some "dQw4w9WgXcQ".data := by decide

example : extract_video_id "hello".data = none := by decide

example : extract_video_id "youtube.com/watch?a&v=AAAAAAAAAAA&v=BBBBBBBBBBB".data
    = some "BBBBBBBBBBB".data := by decide

/-! ### Soundness and completeness of the matcher -/

theorem starSplits_sound {p : Char → Bool} :
    ∀ {s : List Char} {c : Option (List Char)} {rest : List Char},
      (c, rest) ∈ starSplits p s →
      ∃ u, s = u ++ rest ∧ c = none ∧ ∀ ch ∈ u, p ch = true := by
  intro s
  induction s with
  | nil =>
    intro c rest h
    simp only [starSplits, List.mem_singleton, Prod.mk.injEq] at h
    exact ⟨[], by simp [h.2], h.1, by simp⟩
  | cons a t ih =>
    intro c rest h
    by_cases hp : p a = true
    · simp only [starSplits, hp, if_true, List.mem_append, List.mem_singleton,
        Prod.mk.injEq] at h
      rcases h with h | h
      · obtain ⟨u, ht, hc, hall⟩ := ih h
        refine ⟨a :: u, by simp [ht], hc, ?_⟩
        intro ch hch
        rcases List.mem_cons.mp hch with hch | hch
        · exact hch ▸ hp
        · exact hall ch hch
      · exact ⟨[], by simp [h.2], h.1, by simp⟩
    · simp only [starSplits, if_neg hp, List.mem_singleton, Prod.mk.injEq] at h
      exact ⟨[], by simp [h.2], h.1, by simp⟩

theorem reMatches_sound :
    ∀ (r : RE) {s : List Char} {c : Option (List Char)} {rest : List Char},
      (c, rest) ∈ reMatches r s → ∃ u, s = u ++ rest ∧ RMatch r u c := by
  intro r
  induction r with
  | eps =>
    intro s c rest h
    simp only [reMatches, List.mem_singleton, Prod.mk.injEq] at h
    exact ⟨[], by simp [h.2], by rw [h.1]; exact RMatch.eps⟩
  | lit a =>
    intro s c rest h
    cases s with
    | nil => simp [reMatches] at h
    | cons x t =>
      by_cases hx : x = a
      · simp only [reMatches, hx, if_true, List.mem_singleton, Prod.mk.injEq] at h
        exact ⟨[a], by simp [hx, h.2], by rw [h.1]; exact RMatch.lit a⟩
      · simp [reMatches, hx] at h
  | cls p =>
    intro s c rest h
    cases s with
    | nil => simp [reMatches] at h
    | cons x t =>
      by_cases hx : p x = true
      · simp only [reMatches, hx, if_true, List.mem_singleton, Prod.mk.injEq] at h
        exact ⟨[x], by simp [h.2], by rw [h.1]; exact RMatch.cls hx⟩
      · simp [reMatches, hx] at h
  | seq r₁ r₂ ih₁ ih₂ =>
    intro s c rest h
    simp only [reMatches] at h
    rcases List.mem_flatMap.mp h with ⟨pr, hpr, hmem⟩
    rcases List.mem_map.mp hmem with ⟨qr, hqr, heq⟩
    obtain ⟨u₁, hs₁, hm₁⟩ := ih₁ hpr
    obtain ⟨u₂, hs₂, hm₂⟩ := ih₂ hqr
    injection heq with hc hr
    refine ⟨u₁ ++ u₂, ?_, ?_⟩
    · rw [hs₁, hs₂, ← hr, List.append_assoc]
    · rw [← hc]; exact RMatch.seq hm₁ hm₂
  | opt r ih =>
    intro s c rest h
    simp only [reMatches] at h
    rcases List.mem_append.mp h with h | h
    · obtain ⟨u, hs, hm⟩ := ih h
      exact ⟨u, hs, RMatch.optSome hm⟩
    · simp only [List.mem_singleton, Prod.mk.injEq] at h
      exact ⟨[], by simp [h.2], by rw [h.1]; exact RMatch.optNone⟩
  | star p =>
    intro s c rest h
    simp only [reMatches] at h
    obtain ⟨u, hs, hc, hall⟩ := starSplits_sound h
    exact ⟨u, hs, by rw [hc]; exact RMatch.star hall⟩
  | grp n p =>
    intro s c rest h
    simp only [reMatches] at h
    split at h
    case isTrue hcond =>
      simp only [List.mem_singleton, Prod.mk.injEq] at h
      refine ⟨s.take n, ?_, ?_⟩
      · rw [h.2]; exact (List.take_append_drop n s).symm
      · rw [h.1]; exact RMatch.grp hcond.1 (List.all_eq_true.mp hcond.2)
    case isFalse => simp at h

theorem starSplits_self (p : Char → Bool) : ∀ s : List Char, (none, s) ∈ starSplits p s := by
  intro s
  cases s with
  | nil => simp [starSplits]
  | cons a t => by_cases hp : p a = true <;> simp [starSplits, hp]

theorem starSplits_complete {p : Char → Bool} :
    ∀ (u rest : List Char), (∀ ch ∈ u, p ch = true) →
      (none, rest) ∈ starSplits p (u ++ rest) := by
  intro u
  induction u with
  | nil => intro rest _; simpa using starSplits_self p rest
  | cons a t ih =>
    intro rest hall
    have hpa : p a = true := hall a (List.mem_cons_self a t)
    simp only [List.cons_append, starSplits, hpa, if_true]
    exact List.mem_append_left _ (ih rest fun ch hch => hall ch (List.mem_cons_of_mem a hch))

theorem reMatches_complete :
    ∀ {r : RE} {u : List Char} {c : Option (List Char)}, RMatch r u c →
      ∀ rest : List Char, (c, rest) ∈ reMatches r (u ++ rest) := by
  intro r u c h
  induction h with
  | eps => intro rest; simp [reMatches]
  | lit a => intro rest; simp [reMatches]
  | cls hp => intro rest; simp [reMatches, hp]
  | @seq r₁ r₂ u v c₁ c₂ h₁ h₂ ih₁ ih₂ =>
    intro rest
    simp only [reMatches]
    refine List.mem_flatMap.mpr ⟨(c₁, v ++ rest), ?_, ?_⟩
    · rw [List.append_assoc]; exact ih₁ (v ++ rest)
    · exact List.mem_map.mpr ⟨(c₂, rest), ih₂ rest, rfl⟩
  | optSome h ih =>
    intro rest
    simp only [reMatches]
    exact List.mem_append_left _ (ih rest)
  | optNone =>
    intro rest
    simp only [reMatches, List.nil_append]
    exact List.mem_append_right _ (List.mem_singleton.mpr rfl)
  | star hall => intro rest; exact starSplits_complete _ _ hall
  | @grp n p u hlen hall =>
    intro rest
    simp only [reMatches]
    rw [if_pos ⟨by rw [List.take_left' hlen, hlen], by rw [List.take_left' hlen]; exact List.all_eq_true.mpr hall⟩]
    simp [List.take_left' hlen, List.drop_left' hlen]

/-! ### Search lemmas -/

theorem reSearch_head {r : RE} {s : List Char} {c : Option (List Char)}
    {rest : List Char} {l : List (Option (List Char) × List Char)}
    (h : reMatches r s = (c, rest) :: l) : reSearch r s = some c := by
  cases s <;> simp [reSearch, h]

theorem reSearch_empty {r : RE} (hm : reMatches r [] = []) : reSearch r [] = none := by
  simp [reSearch, hm]

theorem reSearch_step {r : RE} {x : Char} {t : List Char}
    (hm : reMatches r (x :: t) = []) : reSearch r (x :: t) = reSearch r t := by
  simp [reSearch, hm]

theorem reSearch_sound {r : RE} :
    ∀ {s : List Char} {cap : Option (List Char)}, reSearch r s = some cap →
      ∃ pre u post, s = pre ++ u ++ post ∧ RMatch r u cap := by
  intro s
  induction s with
  | nil =>
    intro cap h
    cases hm : reMatches r [] with
    | nil => rw [reSearch_empty hm] at h; exact absurd h (by simp)
    | cons hd tl =>
      obtain ⟨c, rest⟩ := hd
      rw [reSearch_head hm] at h
      injection h with h'
      have hmem : (c, rest) ∈ reMatches r [] := by rw [hm]; exact List.mem_cons_self _ _
      obtain ⟨u, hs, hmatch⟩ := reMatches_sound r hmem
      exact ⟨[], u, rest, by simpa using hs, h' ▸ hmatch⟩
  | cons x t ih =>
    intro cap h
    cases hm : reMatches r (x :: t) with
    | nil =>
      rw [reSearch_step hm] at h
      obtain ⟨pre, u, post, hs, hmatch⟩ := ih h
      exact ⟨x :: pre, u, post, by simp [hs], hmatch⟩
    | cons hd tl =>
      obtain ⟨c, rest⟩ := hd
      rw [reSearch_head hm] at h
      injection h with h'
      have hmem : (c, rest) ∈ reMatches r (x :: t) := by rw [hm]; exact List.mem_cons_self _ _
      obtain ⟨u, hs, hmatch⟩ := reMatches_sound r hmem
      exact ⟨[], u, rest, by simpa using hs, h' ▸ hmatch⟩

theorem reSearch_ne_none_of_match {r : RE} :
    ∀ (pre : List Char) {u : List Char} {cap : Option (List Char)} (post : List Char),
      RMatch r u cap → reSearch r (pre ++ u ++ post) ≠ none := by
  intro pre
  induction pre with
  | nil =>
    intro u cap post hm hnone
    simp only [List.nil_append] at hnone
    have hmem := reMatches_complete hm post
    cases hq : reMatches r (u ++ post) with
    | nil => rw [hq] at hmem; simp at hmem
    | cons hd tl =>
      obtain ⟨c, rest⟩ := hd
      rw [reSearch_head hq] at hnone
      exact absurd hnone (by simp)
  | cons x p ih =>
    intro u cap post hm hnone
    have hs : (x :: p) ++ u ++ post = x :: (p ++ u ++ post) := by simp
    rw [hs] at hnone
    cases hq : reMatches r (x :: (p ++ u ++ post)) with
    | nil =>
      rw [reSearch_step hq] at hnone
      exact ih post hm hnone
    | cons hd tl =>
      obtain ⟨c, rest⟩ := hd
      rw [reSearch_head hq] at hnone
      exact absurd hnone (by simp)

theorem capFree_none : ∀ {r : RE} {u : List Char} {c : Option (List Char)},
    RMatch r u c → capFree r = true → c = none := by
  intro r u c h
  induction h with
  | eps => intro _; rfl
  | lit => intro _; rfl
  | cls => intro _; rfl
  | seq h₁ h₂ ih₁ ih₂ =>
    intro hc
    simp only [capFree, Bool.and_eq_true] at hc
    rw [ih₁ hc.1, ih₂ hc.2]; rfl
  | optSome h ih => intro hc; exact ih (by simpa [capFree] using hc)
  | optNone => intro _; rfl
  | star => intro _; rfl
  | grp => intro hc; simp [capFree] at hc

theorem litStr_matches : ∀ w : List Char, RMatch (litStr w) w none := by
  intro w
  induction w with
  | nil => exact RMatch.eps
  | cons c t ih =>
    have h := RMatch.seq (RMatch.lit c) ih
    simpa [capJoin] using h

theorem litStr_inv : ∀ (w : List Char) {u : List Char} {c : Option (List Char)},
    RMatch (litStr w) u c → u = w ∧ c = none := by
  intro w
  induction w with
  | nil => intro u c h; cases h; exact ⟨rfl, rfl⟩
  | cons a t ih =>
    intro u c h
    cases h with
    | seq h₁ h₂ =>
      cases h₁
      obtain ⟨hu, hc⟩ := ih h₂
      exact ⟨by rw [hu]; rfl, by rw [hc]; rfl⟩

/-! ### Per-pattern characterisation -/

theorem simpleRE_inv {core u : List Char} {cap : Option (List Char)}
    (h : RMatch (simpleRE core) u cap) :
    ∃ a g, u = a ++ core ++ g ∧ cap = some g ∧ g.length = 11 ∧ g.all vidChar = true := by
  unfold simpleRE at h
  cases h with
  | @seq _ _ u₁ v₁ c₁ c₂ h₁ h₂ =>
    cases h₂ with
    | @seq _ _ u₂ v₂ c₃ c₄ h₃ h₄ =>
      cases h₄ with
      | @seq _ _ u₃ u₄ c₅ c₆ h₅ h₆ =>
        obtain ⟨hu₃, hc₅⟩ := litStr_inv core h₅
        cases h₆ with
        | @grp _ _ _ hlen hall =>
          have hc₁ : c₁ = none := capFree_none h₁ rfl
          have hc₃ : c₃ = none := capFree_none h₃ rfl
          refine ⟨u₁ ++ u₂, u₄, ?_, ?_, hlen, List.all_eq_true.mpr hall⟩
          · rw [hu₃]; simp [List.append_assoc]
          · rw [hc₁, hc₅, hc₃]; rfl

theorem pattern1_inv {u : List Char} {cap : Option (List Char)}
    (h : RMatch pattern1 u cap) :
    ∃ a q g, u = a ++ "youtube.com/watch?".data ++ q ++ "v=".data ++ g ∧
      cap = some g ∧ g.length = 11 ∧ g.all vidChar = true ∧
      (q = [] ∨ ∃ w, q = w ++ ['&'] ∧ w.all dotChar = true) := by
  unfold pattern1 at h
  cases h with
  | @seq _ _ u₁ v₁ c₁ c₂ h₁ h₂ =>
    cases h₂ with
    | @seq _ _ u₂ v₂ c₃ c₄ h₃ h₄ =>
      cases h₄ with
      | @seq _ _ u₃ v₃ c₅ c₆ h₅ h₆ =>
        obtain ⟨hu₃, hc₅⟩ := litStr_inv _ h₅
        cases h₆ with
        | @seq _ _ u₄ v₄ c₇ c₈ h₇ h₈ =>
          cases h₈ with
          | @seq _ _ u₅ u₆ c₉ c₁₀ h₉ h₁₀ =>
            obtain ⟨hu₅, hc₉⟩ := litStr_inv _ h₉
            cases h₁₀ with
            | @grp _ _ _ hlen hall =>
              have hc₁ : c₁ = none := capFree_none h₁ rfl
              have hc₃ : c₃ = none := capFree_none h₃ rfl
              have hc₇ : c₇ = none := capFree_none h₇ rfl
              have hq : u₄ = [] ∨ ∃ w, u₄ = w ++ ['&'] ∧ w.all dotChar = true := by
                cases h₇ with
                | optNone => exact Or.inl rfl
                | optSome hin =>
                    cases hin with
                    | @seq _ _ w₁ w₂ d₁ d₂ hstar hamp =>
                      cases hamp
                      cases hstar with
                      | star hall' =>
                        exact Or.inr ⟨w₁, rfl, List.all_eq_true.mpr hall'⟩
              refine ⟨u₁ ++ u₂, u₄, u₆, ?_, ?_, hlen, List.all_eq_true.mpr hall, hq⟩
              · rw [hu₃, hu₅]; simp [List.append_assoc]
              · rw [hc₁, hc₃, hc₅, hc₇, hc₉]; rfl

theorem simpleRE_sees {core g : List Char} (hlen : g.length = 11)
    (hall : g.all vidChar = true) : RMatch (simpleRE core) (core ++ g) (some g) := by
  have h₄ : RMatch (.grp 11 vidChar) g (some g) :=
    RMatch.grp hlen (List.all_eq_true.mp hall)
  have h₃ := RMatch.seq (litStr_matches core) h₄
  have h₂ := RMatch.seq (RMatch.optNone (r := litStr "www.".data)) h₃
  have h₁ := RMatch.seq
    (RMatch.optNone (r := .seq (litStr "http".data) (.seq (.opt (.lit 's')) (litStr "://".data)))) h₂
  simpa [simpleRE, schemeRE, wwwRE, capJoin] using h₁

theorem pattern1_sees {q g : List Char}
    (hq : q = [] ∨ ∃ w, q = w ++ ['&'] ∧ w.all dotChar = true)
    (hlen : g.length = 11) (hall : g.all vidChar = true) :
    RMatch pattern1 ("youtube.com/watch?".data ++ q ++ "v=".data ++ g) (some g) := by
  have h₆ : RMatch (.grp 11 vidChar) g (some g) :=
    RMatch.grp hlen (List.all_eq_true.mp hall)
  have h₅ := RMatch.seq (litStr_matches "v=".data) h₆
  have hqm : RMatch (.opt (.seq (.star dotChar) (.lit '&'))) q none := by
    rcases hq with hq | ⟨w, hw, hwall⟩
    · rw [hq]; exact RMatch.optNone
    · rw [hw]
      have hs := RMatch.seq (RMatch.star (List.all_eq_true.mp hwall)) (RMatch.lit '&')
      exact RMatch.optSome (by simpa [capJoin] using hs)
  have h₄ := RMatch.seq hqm h₅
  have h₃ := RMatch.seq (litStr_matches "youtube.com/watch?".data) h₄
  have h₂ := RMatch.seq (RMatch.optNone (r := litStr "www.".data)) h₃
  have h₁ := RMatch.seq
    (RMatch.optNone (r := .seq (litStr "http".data) (.seq (.opt (.lit 's')) (litStr "://".data)))) h₂
  simpa [pattern1, schemeRE, wwwRE, capJoin, List.append_assoc] using h₁

/-! ### `search1` and `extract_video_id` -/

theorem search1_sound {r : RE} {s g : List Char} (h : search1 r s = some g) :
    ∃ pre u post, s = pre ++ u ++ post ∧ RMatch r u (some g) := by
  unfold search1 at h
  cases hr : reSearch r s with
  | none => rw [hr] at h; simp at h
  | some cap =>
    rw [hr] at h
    cases cap with
    | none => simp at h
    | some g' =>
      simp only [Option.some.injEq] at h
      rw [← h]
      exact reSearch_sound hr

theorem search1_ne_none_of_match {r : RE}
    (hcap : ∀ {u : List Char} {cap : Option (List Char)}, RMatch r u cap → ∃ g, cap = some g)
    {s u g : List Char} (pre post : List Char) (hs : s = pre ++ u ++ post)
    (hm : RMatch r u (some g)) : search1 r s ≠ none := by
  intro hnone
  cases hr : reSearch r s with
  | none => exact reSearch_ne_none_of_match pre post hm (hs ▸ hr)
  | some cap =>
    obtain ⟨pre', u', post', _, hm'⟩ := reSearch_sound hr
    obtain ⟨g', hg'⟩ := hcap hm'
    unfold search1 at hnone
    rw [hr, hg'] at hnone
    simp at hnone

theorem pattern1_capSome {u : List Char} {cap : Option (List Char)}
    (h : RMatch pattern1 u cap) : ∃ g, cap = some g := by
  obtain ⟨a, q, g, _, hc, _⟩ := pattern1_inv h
  exact ⟨g, hc⟩

theorem simpleRE_capSome {core u : List Char} {cap : Option (List Char)}
    (h : RMatch (simpleRE core) u cap) : ∃ g, cap = some g := by
  obtain ⟨a, g, _, hc, _⟩ := simpleRE_inv h
  exact ⟨g, hc⟩

/-! ### `extract_video_id` against the declarative containment predicate -/

theorem containsTok_of_extract {s g : List Char}
    (h : extract_video_id s = some g) : ContainsTok s g := by
  unfold extract_video_id at h
  simp only [tryPatterns] at h
  have shape_simple : ∀ core : List Char, search1 (simpleRE core) s = some g →
      ValidTok g ∧ (core ++ g) <:+: s := by
    intro core hs
    obtain ⟨pre, u, post, hdec, hm⟩ := search1_sound hs
    obtain ⟨a, g', hu, hcap, hlen, hall⟩ := simpleRE_inv hm
    injection hcap with hg'
    subst hg'
    refine ⟨⟨hlen, hall⟩, pre ++ a, post, ?_⟩
    rw [hdec, hu]
    simp [List.append_assoc]
  cases h1 : search1 pattern1 s with
  | some g1 =>
    rw [h1] at h
    simp only [Option.some.injEq] at h
    subst h
    obtain ⟨pre, u, post, hdec, hm⟩ := search1_sound h1
    obtain ⟨a, q, g', hu, hcap, hlen, hall, hq⟩ := pattern1_inv hm
    injection hcap with hg'
    subst hg'
    refine ⟨⟨hlen, hall⟩, Or.inl ⟨q, ⟨pre ++ a, post, ?_⟩, hq⟩⟩
    rw [hdec, hu]
    simp [List.append_assoc]
  | none =>
    rw [h1] at h
    cases h2 : search1 pattern2 s with
    | some g2 =>
      rw [h2] at h
      simp only [Option.some.injEq] at h
      subst h
      obtain ⟨hv, hinf⟩ := shape_simple _ h2
      exact ⟨hv, Or.inr (Or.inl hinf)⟩
    | none =>
      rw [h2] at h
      cases h3 : search1 pattern3 s with
      | some g3 =>
        rw [h3] at h
        simp only [Option.some.injEq] at h
        subst h
        obtain ⟨hv, hinf⟩ := shape_simple _ h3
        exact ⟨hv, Or.inr (Or.inr (Or.inl hinf))⟩
      | none =>
        rw [h3] at h
        cases h4 : search1 pattern4 s with
        | some g4 =>
          rw [h4] at h
          simp only [Option.some.injEq] at h
          subst h
          obtain ⟨hv, hinf⟩ := shape_simple _ h4
          exact ⟨hv, Or.inr (Or.inr (Or.inr hinf))⟩
        | none => rw [h4] at h; simp at h

theorem extract_ne_none_of_containsTok {s t : List Char}
    (h : ContainsTok s t) : extract_video_id s ≠ none := by
  obtain ⟨⟨hlen, hall⟩, hsh⟩ := h
  intro hnone
  unfold extract_video_id at hnone
  simp only [tryPatterns] at hnone
  have h1 : search1 pattern1 s = none := by
    cases hx : search1 pattern1 s with
    | none => rfl
    | some g => rw [hx] at hnone; simp at hnone
  have h2 : search1 pattern2 s = none := by
    rw [h1] at hnone
    cases hx : search1 pattern2 s with
    | none => rfl
    | some g => rw [hx] at hnone; simp at hnone
  have h3 : search1 pattern3 s = none := by
    rw [h1, h2] at hnone
    cases hx : search1 pattern3 s with
    | none => rfl
    | some g => rw [hx] at hnone; simp at hnone
  have h4 : search1 pattern4 s = none := by
    rw [h1, h2, h3] at hnone
    cases hx : search1 pattern4 s with
    | none => rfl
    | some g => rw [hx] at hnone; simp at hnone
  rcases hsh with hsh | hsh | hsh | hsh
  · obtain ⟨q, ⟨a, b, hinf⟩, hq⟩ := hsh
    refine search1_ne_none_of_match (r := pattern1) (g := t)
      (fun hm => pattern1_capSome hm) a b ?_ (pattern1_sees hq hlen hall) h1
    rw [← hinf]
  · obtain ⟨a, b, hinf⟩ := hsh
    refine search1_ne_none_of_match (r := pattern2) (g := t)
      (fun hm => simpleRE_capSome hm) a b ?_ (simpleRE_sees hlen hall) h2
    rw [← hinf]
  · obtain ⟨a, b, hinf⟩ := hsh
    refine search1_ne_none_of_match (r := pattern3) (g := t)
      (fun hm => simpleRE_capSome hm) a b ?_ (simpleRE_sees hlen hall) h3
    rw [← hinf]
  · obtain ⟨a, b, hinf⟩ := hsh
    refine search1_ne_none_of_match (r := pattern4) (g := t)
      (fun hm => simpleRE_capSome hm) a b ?_ (simpleRE_sees hlen hall) h4
    rw [← hinf]

/-- Any string containing one of the four shapes is at least 20 characters
long (the shortest is `youtu.be/` plus the 11-character token). -/
theorem containsTok_length {s t : List Char} (h : ContainsTok s t) : 20 ≤ s.length := by
  obtain ⟨⟨hlen, _⟩, hsh⟩ := h
  rcases hsh with ⟨q, ⟨a, b, hinf⟩, _⟩ | ⟨a, b, hinf⟩ | ⟨a, b, hinf⟩ | ⟨a, b, hinf⟩ <;>
    · rw [← hinf]
      simp [List.length_append, hlen]
      try omega

/-- Locate an infix occurrence by its offset: the window of the same
length at some position `k` equals the infix. -/
theorem occurrence_window {w s : List Char} (h : w <:+: s) :
    ∃ k, k + w.length ≤ s.length ∧ (s.drop k).take w.length = w := by
  obtain ⟨a, b, hab⟩ := h
  refine ⟨a.length, ?_, ?_⟩
  · rw [← hab]; simp [List.length_append]
  · rw [← hab, List.append_assoc, List.drop_left, List.take_left]

/-! ### Claim C1 -/

/-- Claim C1: for every input string containing one of the four supported
YouTube URL shapes (`watch?v=`, `youtu.be/`, `embed/`, `v/`) with a valid
11-character token of class `[a-zA-Z0-9_-]`, `extract_video_id` returns
exactly that token (stated both as: it returns some genuinely contained
token, and: when the contained token is unique it returns precisely it);
for every string containing none of the four shapes it returns the
explicit "not found" result (`none`) rather than failing; and the four
patterns are tried in the fixed listed order (a hit of the first listed
pattern is the overall answer). -/
theorem claim1_extract_video_id_correct :
    (∀ s : List Char, (∃ t, ContainsTok s t) →
      ∃ g, extract_video_id s = some g ∧ ContainsTok s g) ∧
    (∀ s t : List Char, ContainsTok s t → (∀ t', ContainsTok s t' → t' = t) →
      extract_video_id s = some t) ∧
    (∀ s : List Char, (∀ t, ¬ ContainsTok s t) → extract_video_id s = none) ∧
    (∀ s g : List Char, search1 pattern1 s = some g → extract_video_id s = some g) := by
  refine ⟨?_, ?_, ?_, ?_⟩
  · rintro s ⟨t, ht⟩
    cases hx : extract_video_id s with
    | none => exact absurd hx (extract_ne_none_of_containsTok ht)
    | some g => exact ⟨g, rfl, containsTok_of_extract hx⟩
  · intro s t ht huniq
    cases hx : extract_video_id s with
    | none => exact absurd hx (extract_ne_none_of_containsTok ht)
    | some g => rw [huniq g (containsTok_of_extract hx)]
  · intro s hnone
    cases hx : extract_video_id s with
    | none => rfl
    | some g => exact absurd (containsTok_of_extract hx) (hnone g)
  · intro s g h
    simp [extract_video_id, tryPatterns, h]

/-- Witness for claim C1 at concrete inputs: the URL
`https://youtu.be/dQw4w9WgXcQ` contains exactly one shape occurrence and
extraction returns its token, and `hello` contains no shape and
extraction returns `none`; both conclusions obtained by applying
`claim1_extract_video_id_correct` with its hypotheses discharged. -/
theorem claim1_extract_video_id_correct_check :
    extract_video_id "https://youtu.be/dQw4w9WgXcQ".data = some "dQw4w9WgXcQ".data ∧
    extract_video_id "hello".data = none := by
  constructor
  · refine claim1_extract_video_id_correct.2.1 _ "dQw4w9WgXcQ".data
      ⟨⟨by decide, by decide⟩, Or.inr (Or.inl ⟨"https://".data, [], by decide⟩)⟩ ?_
    intro t' ht'
    obtain ⟨⟨hlen', _⟩, hsh⟩ := ht'
    have hs28 : ("https://youtu.be/dQw4w9WgXcQ".data).length = 28 := by decide
    rcases hsh with ⟨q, hinf, _⟩ | hinf | hinf | hinf
    · obtain ⟨k, hk, _⟩ := occurrence_window hinf
      have h18 : ("youtube.com/watch?".data).length = 18 := by decide
      have h2l : ("v=".data).length = 2 := by decide
      simp only [List.length_append, h18, h2l, hlen', hs28] at hk
      exact absurd hk (by omega)
    · obtain ⟨k, hk, hw⟩ := occurrence_window hinf
      have h9 : ("youtu.be/".data).length = 9 := by decide
      have hwlen : ("youtu.be/".data ++ t').length = 20 := by
        rw [List.length_append, hlen']; decide
      rw [hwlen, hs28] at hk
      rw [hwlen] at hw
      have hk8 : k ≤ 8 := by omega
      interval_cases k <;>
        first
          | (have hq' := congrArg (List.take 9) hw
             rw [List.take_left' h9] at hq'
             exact absurd hq' (by decide))
          | (have heq : "youtu.be/".data ++ "dQw4w9WgXcQ".data = "youtu.be/".data ++ t' := by
               rw [← hw]; decide
             exact (List.append_cancel_left heq).symm)
    · obtain ⟨k, hk, _⟩ := occurrence_window hinf
      have h18e : ("youtube.com/embed/".data).length = 18 := by decide
      simp only [List.length_append, h18e, hlen', hs28] at hk
      exact absurd hk (by omega)
    · obtain ⟨k, hk, hw⟩ := occurrence_window hinf
      have h14 : ("youtube.com/v/".data).length = 14 := by decide
      have hwlen : ("youtube.com/v/".data ++ t').length = 25 := by
        rw [List.length_append, hlen']; decide
      rw [hwlen, hs28] at hk
      rw [hwlen] at hw
      have hk3 : k ≤ 3 := by omega
      interval_cases k <;>
        · have hq' := congrArg (List.take 14) hw
          rw [List.take_left' h14] at hq'
          exact absurd hq' (by decide)
  · refine claim1_extract_video_id_correct.2.2.1 _ ?_
    intro t ht
    have hlen := containsTok_length ht
    have h5 : ("hello".data).length = 5 := by decide
    rw [h5] at hlen
    omega

/-! ### Claim C10 -/

/-- Claim C10: the extractor searches unanchored — a shape occurrence
anywhere inside an arbitrary surrounding string is found — and when the
identifier position is followed by more than 11 characters of the class
`[a-zA-Z0-9_-]`, the captured group is the first 11 of them, so a URL
with a longer candidate token still yields an 11-character identifier
(for a clean `youtu.be/` input, the extracted token is exactly the first
11 class characters after the slash, whatever valid class characters
follow). -/
theorem claim10_unanchored_take11 :
    (∀ pre post t : List Char, t.length = 11 → t.all vidChar = true →
      ∃ g, extract_video_id (pre ++ ("youtube.com/embed/".data ++ t) ++ post) = some g ∧
        ContainsTok (pre ++ ("youtube.com/embed/".data ++ t) ++ post) g) ∧
    (∀ t extra : List Char, t.length = 11 → (t ++ extra).all vidChar = true →
      extract_video_id ("youtu.be/".data ++ (t ++ extra)) = some t) := by
  constructor
  · intro pre post t hlen hall
    have hct : ContainsTok (pre ++ ("youtube.com/embed/".data ++ t) ++ post) t :=
      ⟨⟨hlen, hall⟩, Or.inr (Or.inr (Or.inl ⟨pre, post, rfl⟩))⟩
    cases hx : extract_video_id (pre ++ ("youtube.com/embed/".data ++ t) ++ post) with
    | none => exact absurd hx (extract_ne_none_of_containsTok hct)
    | some g => exact ⟨g, rfl, containsTok_of_extract hx⟩
  · intro t extra hlen hall
    have hallt : t.all vidChar = true := by
      rw [List.all_append] at hall
      exact (Bool.and_eq_true _ _).mp hall |>.1
    -- pattern 1 never fires: a `watch` match would put a '?' in the
    -- input, which contains none.
    have h1 : search1 pattern1 ("youtu.be/".data ++ (t ++ extra)) = none := by
      cases hx : search1 pattern1 ("youtu.be/".data ++ (t ++ extra)) with
      | none => rfl
      | some g =>
        obtain ⟨pre', u, post', hdec, hm⟩ := search1_sound hx
        obtain ⟨a, q, g', hu, _, _, _, _⟩ := pattern1_inv hm
        have hqm : ('?' : Char) ∈ u := by
          rw [hu]
          simp only [List.mem_append]
          exact Or.inl (Or.inl (Or.inl (Or.inr (by decide))))
        have hqs : ('?' : Char) ∈ "youtu.be/".data ++ (t ++ extra) := by
          rw [hdec]
          simp only [List.mem_append]
          exact Or.inl (Or.inr hqm)
        rcases List.mem_append.mp hqs with hq | hq
        · exact absurd hq (by decide)
        · have := List.all_eq_true.mp hall '?' hq
          exact absurd this (by decide)
    -- pattern 2 matches at position 0 and captures the first 11 class
    -- characters.
    have h2 : reMatches pattern2 ("youtu.be/".data ++ (t ++ extra)) = [(some t, extra)] := by
      have h9 : "youtu.be/".data = ['y', 'o', 'u', 't', 'u', '.', 'b', 'e', '/'] := rfl
      rw [h9]
      simp only [pattern2, simpleRE, schemeRE, wwwRE, litStr, reMatches, capJoin,
        List.take_left' hlen, List.drop_left' hlen]
      simp [reMatches, capJoin, List.take_left' hlen, List.drop_left' hlen, hlen]
      exact List.all_eq_true.mp hallt
    have hs2 : search1 pattern2 ("youtu.be/".data ++ (t ++ extra)) = some t := by
      unfold search1
      rw [reSearch_head h2]
    simp only [extract_video_id, tryPatterns, h1, hs2]

/-- Witness for claim C10: a shape occurrence surrounded by junk is still
found, and a 13-character class run after `youtu.be/` yields the first 11
characters; both via `claim10_unanchored_take11` with hypotheses
discharged by `decide`. -/
theorem claim10_unanchored_take11_check :
    (∃ g, extract_video_id ("XX".data ++ ("youtube.com/embed/".data ++ "dQw4w9WgXcQ".data) ++ "YY".data) = some g ∧
      ContainsTok ("XX".data ++ ("youtube.com/embed/".data ++ "dQw4w9WgXcQ".data) ++ "YY".data) g) ∧
    extract_video_id ("youtu.be/".data ++ ("dQw4w9WgXcQ".data ++ "99".data)) = some "dQw4w9WgXcQ".data := by
  exact ⟨claim10_unanchored_take11.1 "XX".data "YY".data "dQw4w9WgXcQ".data (by decide) (by decide),
    claim10_unanchored_take11.2 "dQw4w9WgXcQ".data "99".data (by decide) (by decide)⟩

/-! ### Escaping: pointwise characterisation (claims C2 and C8) -/

theorem replaceChar_append (c : Char) (a b : List Char) :
    replaceChar c (a ++ b) = replaceChar c a ++ replaceChar c b := by
  simp [replaceChar]

theorem escape_markdown_append (a b : List Char) :
    escape_markdown (a ++ b) = escape_markdown a ++ escape_markdown b := by
  have key : ∀ (cs : List Char) (a b : List Char),
      List.foldl (fun t c => replaceChar c t) (a ++ b) cs =
        List.foldl (fun t c => replaceChar c t) a cs ++
          List.foldl (fun t c => replaceChar c t) b cs := by
    intro cs
    induction cs with
    | nil => intro a b; rfl
    | cons c cs ih =>
      intro a b
      simp only [List.foldl_cons, replaceChar_append]
      exact ih _ _
  exact key special_chars a b

theorem replaceChar_single_ne {c d : Char} (hne : c ≠ d) : replaceChar d [c] = [c] := by
  simp [replaceChar, hne]

theorem foldl_replace_single_nmem :
    ∀ (cs : List Char) (c : Char), c ∉ cs →
      List.foldl (fun t d => replaceChar d t) [c] cs = [c] := by
  intro cs
  induction cs with
  | nil => intro c _; rfl
  | cons d ds ih =>
    intro c hc
    simp only [List.mem_cons, not_or] at hc
    simp only [List.foldl_cons]
    rw [replaceChar_single_ne hc.1]
    exact ih c hc.2

theorem escape_markdown_single (c : Char) : escape_markdown [c] = escChar c := by
  by_cases hc : c ∈ special_chars
  · have h : c = '\\' ∨ c = '\x60' ∨ c = '*' ∨ c = '_' ∨ c = '\x7b' ∨ c = '\x7d' ∨
        c = '[' ∨ c = ']' ∨ c = '(' ∨ c = ')' ∨ c = '#' ∨ c = '+' ∨ c = '-' ∨
        c = '.' ∨ c = '!' ∨ c = '|' := by simpa [special_chars] using hc
    rcases h with rfl|rfl|rfl|rfl|rfl|rfl|rfl|rfl|rfl|rfl|rfl|rfl|rfl|rfl|rfl|rfl <;> decide
  · rw [show escChar c = [c] from if_neg hc]
    exact foldl_replace_single_nmem special_chars c hc

theorem escape_markdown_flatMap (s : List Char) :
    escape_markdown s = s.flatMap escChar := by
  induction s with
  | nil => rfl
  | cons c t ih =>
    rw [show (c :: t) = [c] ++ t from rfl, escape_markdown_append, ih,
      escape_markdown_single]
    simp [List.flatMap_cons]

/-! ### Claim C2 -/

/-- Claim C2: the escaping pass replaces every occurrence of each
character of the fixed set with that character prefixed by a backslash,
the sequential global substitutions amounting to the pointwise map
`escChar` over the input; in particular `a*b_c` escapes to `a\*b\_c`. -/
theorem claim2_escape_markdown_pointwise :
    (∀ s : List Char, escape_markdown s = s.flatMap escChar) ∧
    escape_markdown "a*b_c".data = "a\\*b\\_c".data :=
  ⟨escape_markdown_flatMap, by decide⟩

/-! ### Claim C8 -/

/-- Claim C8: escaping is not idempotent — there is an input whose double
escape differs from its single escape (the backslashes inserted by one
pass are re-escaped by the next). -/
theorem claim8_escape_not_idempotent :
    ∃ x : List Char, escape_markdown (escape_markdown x) ≠ escape_markdown x :=
  ⟨"*".data, by decide⟩

/-! ### Word counting (claims C3 and C7) -/

theorem pySplit_length_eq :
    ∀ t : List Char, (pySplit t).length = wordTokens t ∧
      (pySplit (t.dropWhile (fun x => !isPySpace x))).length = wordTokensIn t := by
  intro t
  induction t with
  | nil => exact ⟨by simp [pySplit, wordTokens], by simp [pySplit, wordTokensIn]⟩
  | cons c t ih =>
    by_cases hc : isPySpace c = true
    · constructor
      · rw [show pySplit (c :: t) = pySplit t from by simp [pySplit, hc]]
        rw [ih.1]
        simp [wordTokens, hc]
      · rw [show (c :: t).dropWhile (fun x => !isPySpace x) = c :: t from by
          simp [List.dropWhile_cons, hc]]
        rw [show pySplit (c :: t) = pySplit t from by simp [pySplit, hc]]
        rw [ih.1]
        simp [wordTokensIn, hc]
    · constructor
      · rw [show pySplit (c :: t) =
            (c :: t.takeWhile (fun x => !isPySpace x)) ::
              pySplit (t.dropWhile (fun x => !isPySpace x)) from by simp [pySplit, hc]]
        simp only [List.length_cons, ih.2]
        simp [wordTokens, hc]
      · rw [show (c :: t).dropWhile (fun x => !isPySpace x) =
            t.dropWhile (fun x => !isPySpace x) from by simp [List.dropWhile_cons, hc]]
        rw [ih.2]
        simp [wordTokensIn, hc]

example : wordTokens ['a', '\u00a0', 'b'] = 2 := by decide

example : wordTokens ['a', '\x1c', 'b'] = 2 := by decide

example : wordTokens ['a', '\u0085', 'b'] = 2 := by decide

example : wordTokens ['a', '\u2028', 'b'] = 2 := by decide

example : (pySplit ['a', '\u00a0', 'b']).length = 2 := by
  rw [(pySplit_length_eq _).1]; decide

/-! ### Claim C3 -/

/-- Claim C3: a transcript of at most 500 characters (500 included) has
its preview equal to the whole raw transcript with no ellipsis; a longer
transcript has the 500-character prefix followed by `...`; and the lesson
card contains the escape of that preview (the ellipsis being appended
before the escaping pass) immediately after the preview header. -/
theorem claim3_preview_truncation :
    ∀ t : List Char,
      (t.length ≤ 500 → previewOf t = t) ∧
      (500 < t.length → previewOf t = t.take 500 ++ "...".data) ∧
      (∃ a b, generate_lesson_from_text t = a ++ escape_markdown (previewOf t) ++ b ∧
        "Anteprima Trascrizione\n".data <:+ a) := by
  intro t
  refine ⟨?_, ?_, ?_⟩
  · intro h
    simp [previewOf, Nat.not_lt.mpr h]
  · intro h
    simp [previewOf, h]
  · refine ⟨tplA ++ (Nat.repr (pySplit t).length).data ++ tplB,
      tplC ++ escape_markdown t ++ tplD, ?_, ?_⟩
    · unfold generate_lesson_from_text
      simp [List.append_assoc]
    · have hsuf : "Anteprima Trascrizione\n".data <:+ tplB := by decide
      obtain ⟨z, hz⟩ := hsuf
      exact ⟨tplA ++ (Nat.repr (pySplit t).length).data ++ z,
        by rw [← hz]; simp [List.append_assoc]⟩

/-- Witness for claim C3: a short transcript keeps its full text as
preview; a 501-character transcript is truncated to 500 characters plus
an ellipsis; both via `claim3_preview_truncation`. -/
theorem claim3_preview_truncation_check :
    previewOf "abc".data = "abc".data ∧
    previewOf (List.replicate 501 'a') = (List.replicate 501 'a').take 500 ++ "...".data := by
  exact ⟨(claim3_preview_truncation "abc".data).1 (by decide),
    (claim3_preview_truncation (List.replicate 501 'a')).2.1
      (by rw [List.length_replicate]; omega)⟩

/-! ### Claim C7 -/

/-- Claim C7: the number reported after `**Lunghezza trascrizione**: ` in
the metadata block of the lesson card is the decimal representation of
the number of whitespace-delimited tokens of the raw (unescaped)
transcript, followed by ` parole`. -/
theorem claim7_word_count :
    (∀ t : List Char, ∃ b, generate_lesson_from_text t =
        tplA ++ (Nat.repr (wordTokens t)).data ++ (" parole".data ++ b)) ∧
    "**Lunghezza trascrizione**: ".data <:+ tplA := by
  constructor
  · intro t
    refine ⟨"\n- **Lingua**: Italiano/Inglese\n\n## 📝 Anteprima Trascrizione\n".data ++
      (escape_markdown (previewOf t) ++ (tplC ++ (escape_markdown t ++ tplD))), ?_⟩
    have hsplit : tplB = " parole".data ++
        "\n- **Lingua**: Italiano/Inglese\n\n## 📝 Anteprima Trascrizione\n".data := by decide
    unfold generate_lesson_from_text
    rw [(pySplit_length_eq t).1, hsplit]
    simp [List.append_assoc]
  · decide

/-! ### Claim C4 -/

/-- Claim C4: track selection prefers an Italian-tagged track; failing
that an English-tagged one; failing both, the first track of the
service's default iteration order; and with no track at all,
`get_transcript` fails with the "no transcript" condition. -/
theorem claim4_track_selection :
    (∀ ts : List Track, (∃ tr ∈ ts, tr.language_code = "it".data) →
      ∃ tr, select_transcript ts = some tr ∧ tr.language_code = "it".data) ∧
    (∀ ts : List Track, (∀ tr ∈ ts, tr.language_code ≠ "it".data) →
      (∃ tr ∈ ts, tr.language_code = "en".data) →
      ∃ tr, select_transcript ts = some tr ∧ tr.language_code = "en".data) ∧
    (∀ ts : List Track, (∀ tr ∈ ts, tr.language_code ≠ "it".data ∧
        tr.language_code ≠ "en".data) →
      select_transcript ts = ts.head?) ∧
    get_transcript (.ok []) = .error msg_notfound := by
  refine ⟨?_, ?_, ?_, rfl⟩
  · intro ts hex
    have hex' : ∃ tr ∈ ts, (tr.language_code == "it".data) = true := by
      obtain ⟨tr, htr, he⟩ := hex
      exact ⟨tr, htr, beq_iff_eq.mpr he⟩
    have hsome := List.find?_isSome.mpr hex'
    obtain ⟨tr, htr⟩ := Option.isSome_iff_exists.mp hsome
    have hp : (tr.language_code == "it".data) = true := by
      have := List.find?_some htr
      simpa using this
    refine ⟨tr, ?_, beq_iff_eq.mp hp⟩
    unfold select_transcript find_transcript
    rw [htr]
  · intro ts hnone hex
    have hfindIt : ts.find? (fun tr => tr.language_code == "it".data) = none := by
      apply List.find?_eq_none.mpr
      intro tr htr
      simp only [beq_iff_eq]
      exact hnone tr htr
    have hex' : ∃ tr ∈ ts, (tr.language_code == "en".data) = true := by
      obtain ⟨tr, htr, he⟩ := hex
      exact ⟨tr, htr, beq_iff_eq.mpr he⟩
    have hsome := List.find?_isSome.mpr hex'
    obtain ⟨tr, htr⟩ := Option.isSome_iff_exists.mp hsome
    have hp : (tr.language_code == "en".data) = true := by
      have := List.find?_some htr
      simpa using this
    refine ⟨tr, ?_, beq_iff_eq.mp hp⟩
    unfold select_transcript find_transcript
    rw [hfindIt]
    unfold find_transcript
    rw [htr]
  · intro ts hnone
    have hfindIt : ts.find? (fun tr => tr.language_code == "it".data) = none := by
      apply List.find?_eq_none.mpr
      intro tr htr
      simp only [beq_iff_eq]
      exact (hnone tr htr).1
    have hfindEn : ts.find? (fun tr => tr.language_code == "en".data) = none := by
      apply List.find?_eq_none.mpr
      intro tr htr
      simp only [beq_iff_eq]
      exact (hnone tr htr).2
    unfold select_transcript find_transcript
    rw [hfindIt]
    unfold find_transcript
    rw [hfindEn]
    rfl

/-- Witness for claim C4: with `en` before `it` in the listing the
Italian track is still chosen; with only `de`/`en` the English one; with
neither, the head of the listing; all via `claim4_track_selection`. -/
theorem claim4_track_selection_check :
    (∃ tr, select_transcript [⟨"en".data, []⟩, ⟨"it".data, []⟩] = some tr ∧
      tr.language_code = "it".data) ∧
    (∃ tr, select_transcript [⟨"de".data, []⟩, ⟨"en".data, []⟩] = some tr ∧
      tr.language_code = "en".data) ∧
    select_transcript [⟨"de".data, []⟩, ⟨"fr".data, []⟩] =
      ([⟨"de".data, []⟩, ⟨"fr".data, []⟩] : List Track).head? := by
  refine ⟨claim4_track_selection.1 _ ?_, claim4_track_selection.2.1 _ ?_ ?_,
    claim4_track_selection.2.2.1 _ ?_⟩
  · exact ⟨⟨"it".data, []⟩, by decide, rfl⟩
  · decide
  · exact ⟨⟨"en".data, []⟩, by decide, rfl⟩
  · decide

/-! ### Claim C5 -/

/-- Claim C5: each of the three transcript-retrieval failure conditions
is mapped by `get_transcript` to its own user-facing message, the three
messages are pairwise distinct, and the failure is terminal — `main`
catches it and shows the message rather than letting it escape. -/
theorem claim5_error_messages :
    (∀ e : ApiError, get_transcript (.error e) = .error (api_error_message e)) ∧
    (∀ e₁ e₂ : ApiError, e₁ ≠ e₂ → api_error_message e₁ ≠ api_error_message e₂) ∧
    (∀ e : ApiError, main_fetch (.error e) = .failed (api_error_message e)) := by
  refine ⟨?_, ?_, ?_⟩
  · intro e; cases e <;> rfl
  · intro e₁ e₂ hne
    cases e₁ <;> cases e₂ <;> first | (exact absurd rfl hne) | decide
  · intro e; cases e <;> rfl

/-- Witness for claim C5: the "disabled" condition yields its dedicated
message, distinct from the "not found" one; via `claim5_error_messages`. -/
theorem claim5_error_messages_check :
    get_transcript (.error .disabled) = .error (api_error_message .disabled) ∧
    api_error_message .disabled ≠ api_error_message .notFound :=
  ⟨claim5_error_messages.1 .disabled,
    claim5_error_messages.2.1 .disabled .notFound (by decide)⟩

/-! ### Claim C6 -/

/-- Claim C6: the transcript consumed downstream is the segments' text
fields joined in order with exactly one space between consecutive texts
and no leading or trailing separator, and it depends only on the text
fields (timing metadata is discarded). -/
theorem claim6_join_segments :
    join_texts [] = [] ∧
    (∀ sg : Segment, join_texts [sg] = sg.text) ∧
    (∀ (sg : Segment) (rest : List Segment), rest ≠ [] →
      join_texts (sg :: rest) = sg.text ++ ' ' :: join_texts rest) ∧
    (∀ a b : List Segment, a.map Segment.text = b.map Segment.text →
      join_texts a = join_texts b) := by
  refine ⟨rfl, ?_, ?_, ?_⟩
  · intro sg
    simp [join_texts, List.intercalate]
  · intro sg rest hne
    cases rest with
    | nil => exact absurd rfl hne
    | cons r rs =>
      simp [join_texts, List.intercalate, List.intersperse]
  · intro a b h
    simp [join_texts, h]

/-- Witness for claim C6: two segments join with a single interior space,
and segments differing only in timing join identically; via
`claim6_join_segments`. -/
theorem claim6_join_segments_check :
    join_texts [⟨"Hello".data, 0, 1⟩, ⟨"world".data, 5, 2⟩] =
      "Hello".data ++ ' ' :: join_texts [⟨"world".data, 5, 2⟩] ∧
    join_texts [⟨"a".data, 0, 0⟩, ⟨"b".data, 1, 1⟩] =
      join_texts [⟨"a".data, 7, 9⟩, ⟨"b".data, 2, 5⟩] :=
  ⟨claim6_join_segments.2.2.1 ⟨"Hello".data, 0, 1⟩ [⟨"world".data, 5, 2⟩] (by decide),
    claim6_join_segments.2.2.2 _ _ (by decide)⟩

/-! ### Claim C9 -/

/-- Claim C9 counterexample: the claim says the unparseable-URL hint
lists all four supported URL shapes, but the hint shown by the code does
not mention the legacy `youtube.com/v/` shape at all. -/
theorem claim9_hint_counterexample :
    main_route "x".data = .invalidUrl msg_invalid hint_formats ∧
    ¬ ("youtube.com/v/".data <:+: hint_formats) := by
  exact ⟨by decide, by decide⟩

/-- Claim C9 (amended): when the submitted URL is nonempty and
unparseable, the inline error message is accompanied by the hint, which
lists three of the four supported URL shapes (`watch?v=`, `youtu.be/`,
`embed/`) and omits the legacy `v/` shape. -/
theorem claim9_hint_amended :
    ∀ url : List Char, url ≠ [] → extract_video_id url = none →
      main_route url = .invalidUrl msg_invalid hint_formats ∧
      ("youtube.com/watch?v=".data <:+: hint_formats) ∧
      ("youtu.be/".data <:+: hint_formats) ∧
      ("youtube.com/embed/".data <:+: hint_formats) ∧
      ¬ ("youtube.com/v/".data <:+: hint_formats) := by
  intro url hne hex
  refine ⟨?_, by decide, by decide, by decide, by decide⟩
  unfold main_route
  rw [if_neg hne, hex]

/-- Witness for claim C9 (amended): the unparseable input `x` produces
the inline error with the hint; via `claim9_hint_amended`. -/
theorem claim9_hint_amended_check :
    main_route "x".data = .invalidUrl msg_invalid hint_formats :=
  (claim9_hint_amended "x".data (by decide) (by decide)).1
